import Mathlib

/-!
Verification of the APMC weather/agriculture chatbot orchestration core
(`agent.py`, `agent_tools.py`, `utils.py`, `text_to_text_and_audio.py`)
against its natural-language specification.

The Python source is shallowly embedded: the module-global dict
`session_stores` becomes an explicit association list threaded through the
functions that touch it; external collaborators (LLM, translation provider,
language detector, weather/price HTTP services) become function parameters;
Python strings are `String` / `List Char`, with Python `len`, `split`,
`strip`, `rstrip` reimplemented character-exactly.
-/

/-- A chat message as stored in a `ChatMessageHistory`: either a human
(user) message or an agent (AI) message, with its text content. -/
inductive Msg where
  | human : String → Msg
  | agent : String → Msg
deriving DecidableEq

/-- The module-global `session_stores` dict of `agent.py`, embedded as an
association list from session id to the ordered message list of that
session's `ChatMessageHistory`. -/
abbrev SessionStore := List (String × List Msg)

/-- Python `session_id in session_stores` / `session_stores[session_id]`,
returning the stored history when the key is present. -/
def lookupStore : SessionStore → String → Option (List Msg)
  | [], _ => none
  | (k, v) :: rest, sid => if k = sid then some v else lookupStore rest sid

/-- `get_session_history` (agent.py:94-98): if the session id is absent,
insert a fresh empty `ChatMessageHistory`; return the (possibly updated)
store together with the session's history. -/
def get_session_history (stores : SessionStore) (sid : String) :
    SessionStore × List Msg :=
  match lookupStore stores sid with
  | some h => (stores, h)
  | none => (stores ++ [(sid, [])], [])

/-- `get_conversation_history` (agent.py:145-149): return the messages when
the session id is known, else the empty list, without creating a session. -/
def get_conversation_history (stores : SessionStore) (sid : String) :
    List Msg :=
  match lookupStore stores sid with
  | some h => h
  | none => []

/-- Appending messages to the `ChatMessageHistory` object stored under
`sid` (mutation of the shared object, seen through the store). -/
def storeAppend : SessionStore → String → List Msg → SessionStore
  | [], _, _ => []
  | (k, v) :: rest, sid, ms =>
    if k = sid then (k, v ++ ms) :: storeAppend rest sid ms
    else (k, v) :: storeAppend rest sid ms

/-- One successfully completed turn run through `invoke_agent`
(agent.py:125-142): the executor wrapped in `RunnableWithMessageHistory`
(agent.py:115-120) reads the session history through
`get_session_history` (creating it when absent) and, on success, appends
the turn's input as a human message followed by the produced answer as an
agent message. `input` is the string passed as the "input" key (the
utterance, coordinate-annotated when coordinates were supplied) and
`answer` the agent's final output. -/
def runTurn (stores : SessionStore) (sid : String) (input answer : String) :
    SessionStore :=
  storeAppend (get_session_history stores sid).fst sid
    [Msg.human input, Msg.agent answer]

/-- A sequence of successfully completed turns on one session key, each
given as its (input, answer) pair. -/
def runTurns (stores : SessionStore) (sid : String)
    (turns : List (String × String)) : SessionStore :=
  turns.foldl (fun st t => runTurn st sid t.fst t.snd) stores

/-- The message sequence a list of turns contributes to history: per turn,
its input as a human message then its answer as an agent message. -/
def turnMessages (turns : List (String × String)) : List Msg :=
  (turns.map (fun t => [Msg.human t.fst, Msg.agent t.snd])).flatten

/-- Strict alternation check: `isAltFrom true l` holds when `l` alternates
human, agent, human, agent, … starting with a human message. -/
def isAltFrom : Bool → List Msg → Bool
  | _, [] => true
  | true, Msg.human _ :: rest => isAltFrom false rest
  | false, Msg.agent _ :: rest => isAltFrom true rest
  | _, _ => false

/-- The whitespace characters removed by Python `str.strip()`. -/
def pyWS (c : Char) : Bool :=
  c = ' ' || c = '\t' || c = '\n' || c = '\r' || c = '\x0b' || c = '\x0c'

/-- Python `str.strip()` on a character list: drop leading and trailing
whitespace. -/
def pyStripL (l : List Char) : List Char :=
  ((l.dropWhile pyWS).reverse.dropWhile pyWS).reverse

/-- Python `str.strip()`. -/
def pyStrip (s : String) : String := ⟨pyStripL s.data⟩

/-- Python `s.rstrip(t)` for a single-character set `t`: drop trailing
occurrences of `t`. -/
def pyRstrip (t : Char) (s : String) : String :=
  ⟨(s.data.reverse.dropWhile (fun c => c = t)).reverse⟩

/-- Python `str.endswith` on the characters of the two strings. -/
def pyEndsWith (s suffix : String) : Bool :=
  suffix.data.isSuffixOf s.data

/-- Python `str.startswith` on the characters of the two strings. -/
def pyStartsWith (s pre : String) : Bool :=
  pre.data.isPrefixOf s.data

/-- Python `s.split("-")[0]`: the prefix of `s` before the first '-'. -/
def split_dash_head (s : String) : String :=
  ⟨s.data.takeWhile (fun c => c != '-')⟩

/-- Python `text.split("\n")`: split at every newline, keeping empty
pieces; always returns at least one piece. -/
def pySplitNL : List Char → List (List Char)
  | [] => [[]]
  | c :: cs =>
    match pySplitNL cs with
    | [] => [[]]
    | p :: ps => if c = '\n' then [] :: p :: ps else (c :: p) :: ps

/-- Python `"\n".join(pieces)`. -/
def joinNL : List (List Char) → List Char
  | [] => []
  | [p] => p
  | p :: q :: rest => p ++ '\n' :: joinNL (q :: rest)

/-- The chunk-building loop of `translate_text` (utils.py:156-167): greedily
pack paragraphs (plus a re-added newline) into `current` while the packed
length stays within `maxChars`; on overflow emit `current.strip()` and
restart from the overflowing paragraph; finally emit the nonempty
remainder stripped. -/
def chunkLoop (maxChars : Nat) : List (List Char) → List Char → List (List Char)
  | [], current => if current = [] then [] else [pyStripL current]
  | p :: ps, current =>
    if current.length + p.length + 1 ≤ maxChars then
      chunkLoop maxChars ps (current ++ p ++ ['\n'])
    else
      pyStripL current :: chunkLoop maxChars ps (p ++ ['\n'])

/-- The chunks of at most `max_chars = 1000` characters into which
`translate_text` (utils.py:154-167) splits its input before sending each
one to the translation provider. -/
def chunkChars (text : List Char) : List (List Char) :=
  chunkLoop 1000 (pySplitNL text) []

/-- `format_language_code` (utils.py:142-145): append "-IN" to a nonempty
code that does not already end in "-IN". -/
def format_language_code (lang_code : String) : String :=
  if lang_code != "" && !(pyEndsWith lang_code "-IN") then lang_code ++ "-IN"
  else lang_code

/-- `translate_text` (utils.py:125-178), success path, with the translation
provider (`sarvam_client.text.translate` plus `.translated_text`) as a
parameter: format both language codes, skip translation when they agree,
otherwise translate each chunk, strip it, and rejoin with newlines.
A provider exception aborts the whole call with an HTTPException and is
outside this success-path embedding. -/
def translate_text (provider : List Char → List Char) (text : String)
    (target_language_code source_language_code : String) : String :=
  let formatted_source := format_language_code source_language_code
  let formatted_target := format_language_code target_language_code
  if formatted_source = formatted_target then text
  else ⟨joinNL ((chunkChars text.data).map (fun c => pyStripL (provider c)))⟩

/-- `is_non_english_text` (agent_tools.py:17-20): true iff some character
matches the regex `[^\x00-\x7FÀ-ſĀ-ɏ]`, i.e. lies
outside all three Latin ranges. -/
def is_non_english_text (s : String) : Bool :=
  s.data.any (fun c =>
    !(c.toNat ≤ 0x7F || (0xC0 ≤ c.toNat && c.toNat ≤ 0x17F) ||
      (0x100 ≤ c.toNat && c.toNat ≤ 0x24F)))

/-- Python truthiness of an `Optional[str]`: `None` and `""` are falsy. -/
def pyTruthy : Option String → Bool
  | none => false
  | some s => s != ""

/-- `translate_location_name_to_english` (utils.py:186-211), with the
language-detection collaborator and the translation provider as
parameters: `None` input short-circuits to `None`; a detection failure is
re-raised as an HTTPException (`Except.error`); otherwise the name is
translated to English via `translate_text`, stripped of surrounding
whitespace and of trailing dots. -/
def translate_location_name_to_english
    (detect_text_language : String → Except String String)
    (provider : List Char → List Char)
    (location_name : String) : Except String (Option String) :=
  if location_name = "" then Except.ok none
  else
    match detect_text_language location_name with
    | Except.error e =>
        Except.error ("Failed to translate location name: " ++ e)
    | Except.ok lang_code =>
        Except.ok (some (pyRstrip '.'
          (pyStrip (translate_text provider location_name "en" lang_code))))

/-- `get_agriculture_prices` (agent_tools.py:59-82), with its collaborators
as parameters: location extraction from text (may raise), reverse lookup
from coordinates (catches internally, returns `none` on failure),
location translation (may raise), and the price fetch/format pair. Any
raised exception is caught by the tool's `except` clause and rendered as
an error string — the tool always returns a string. -/
def get_agriculture_prices {Price : Type}
    (extract_location_from_text : String → Except String (Option String))
    (get_district_from_coords : Float → Float → Option String)
    (translate_location_name : String → Except String String)
    (fetch_agriculture_prices : String → Price)
    (format_agriculture_data : Price → String)
    (city_or_text : String) (lat lon : Option Float) : String :=
  match (if city_or_text != "" then extract_location_from_text city_or_text
         else Except.ok none) with
  | Except.error e => "Error fetching agriculture prices: " ++ e
  | Except.ok location₀ =>
    let location :=
      if !pyTruthy location₀ then
        match lat, lon with
        | some a, some b => get_district_from_coords a b
        | _, _ => location₀
      else location₀
    match location with
    | none => "Unable to detect your location from input or coordinates."
    | some loc =>
      if loc = "" then
        "Unable to detect your location from input or coordinates."
      else
        match (if is_non_english_text loc then translate_location_name loc
               else Except.ok loc) with
        | Except.error e => "Error fetching agriculture prices: " ++ e
        | Except.ok loc₂ =>
            format_agriculture_data (fetch_agriculture_prices loc₂)

/-- The first-match loop over `payload.langs`
(text_to_text_and_audio.py:90-95): return the first entry starting with
`primary`, if any. -/
def match_allowed_language_loop (primary : String) :
    List String → Option String
  | [] => none
  | l :: ls =>
    if pyStartsWith l primary then some l
    else match_allowed_language_loop primary ls

/-- The output-language choice of the `/text` endpoint
(text_to_text_and_audio.py:88-99): with an empty allow-list keep the
detected language; otherwise take the first entry starting with the
primary subtag `user_lang.split("-")[0]`, falling back to `langs[0]`. -/
def choose_output_language (langs : List String) (user_lang : String) :
    String :=
  match langs with
  | [] => user_lang
  | _ :: _ =>
    let primary := split_dash_head user_lang
    match match_allowed_language_loop primary langs with
    | some l => l
    | none => langs.headI

/-- The input preparation of `invoke_agent` (agent.py:131-134): append
" (lat: {lat}, lon: {lon})" exactly when both coordinates are present;
coordinates are carried here as the decimal strings the f-string renders
them to. -/
def enhanced_input (input_text : String) (lat lon : Option String) :
    String :=
  match lat, lon with
  | some a, some b =>
      input_text ++ " (lat: " ++ a ++ ", lon: " ++ b ++ ")"
  | _, _ => input_text

/-- A paragraph with no leading or trailing Python whitespace and at least
one character. -/
def okPara (p : List Char) : Prop :=
  p ≠ [] ∧ p.dropWhile pyWS = p ∧ p.reverse.dropWhile pyWS = p.reverse

instance (p : List Char) : Decidable (okPara p) := by
  unfold okPara; infer_instance

lemma pyStripL_length_le (l : List Char) : (pyStripL l).length ≤ l.length := by
  have h1 : ∀ (m : List Char), (m.dropWhile pyWS).length ≤ m.length := by
    intro m
    induction m with
    | nil => simp
    | cons a m ih =>
      rw [List.dropWhile_cons]
      split
      · exact ih.trans (Nat.le_succ _)
      · exact Nat.le_refl _
  calc (pyStripL l).length
      = ((l.dropWhile pyWS).reverse.dropWhile pyWS).length := by
        simp [pyStripL]
    _ ≤ (l.dropWhile pyWS).reverse.length := h1 _
    _ = (l.dropWhile pyWS).length := by simp
    _ ≤ l.length := h1 l

lemma chunkLoop_length_le (maxChars : Nat) :
    ∀ (paras : List (List Char)) (current : List Char),
      (∀ p ∈ paras, p.length + 1 ≤ maxChars) → current.length ≤ maxChars →
      ∀ c ∈ chunkLoop maxChars paras current, c.length ≤ maxChars := by
  intro paras
  induction paras with
  | nil =>
    intro current _ hcur c hc
    simp only [chunkLoop] at hc
    split at hc
    · simp at hc
    · simp only [List.mem_singleton] at hc
      subst hc
      exact (pyStripL_length_le current).trans hcur
  | cons p ps ih =>
    intro current hps hcur c hc
    simp only [chunkLoop] at hc
    split at hc
    case isTrue h =>
      refine ih _ (fun q hq => hps q (List.mem_cons_of_mem _ hq)) ?_ c hc
      simpa using h
    case isFalse h =>
      rcases List.mem_cons.mp hc with rfl | hc2
      · exact (pyStripL_length_le current).trans hcur
      · refine ih _ (fun q hq => hps q (List.mem_cons_of_mem _ hq)) ?_ c hc2
        simpa using hps p (List.mem_cons_self _ _)

lemma pySplitNL_ne_nil (l : List Char) : pySplitNL l ≠ [] := by
  cases l with
  | nil => simp [pySplitNL]
  | cons c cs =>
    simp only [pySplitNL]
    cases pySplitNL cs with
    | nil => simp
    | cons p ps => by_cases hc : c = '\n' <;> simp [hc]

lemma joinNL_cons (x : List Char) (l : List (List Char)) (h : l ≠ []) :
    joinNL (x :: l) = x ++ '\n' :: joinNL l := by
  cases l with
  | nil => exact absurd rfl h
  | cons q rest => rfl

lemma joinNL_pySplitNL (l : List Char) : joinNL (pySplitNL l) = l := by
  induction l with
  | nil => rfl
  | cons c cs ih =>
    simp only [pySplitNL]
    cases hs : pySplitNL cs with
    | nil => exact absurd hs (pySplitNL_ne_nil cs)
    | cons p ps =>
      rw [hs] at ih
      dsimp only
      by_cases hc : c = '\n'
      · subst hc
        rw [if_pos rfl, joinNL_cons [] (p :: ps) (by simp)]
        simp [ih]
      · rw [if_neg hc]
        cases ps with
        | nil =>
          simp only [joinNL] at ih ⊢
          rw [ih]
        | cons q rest =>
          rw [joinNL_cons (c :: p) (q :: rest) (by simp)]
          rw [joinNL_cons p (q :: rest) (by simp)] at ih
          rw [List.cons_append, ih]

lemma joinNL_append : ∀ (g : List (List Char)), g ≠ [] →
    ∀ (h : List (List Char)), h ≠ [] →
      joinNL (g ++ h) = joinNL g ++ '\n' :: joinNL h
  | [], hg, _, _ => absurd rfl hg
  | [_], _, [], hh => absurd rfl hh
  | [_], _, _ :: _, _ => rfl
  | p :: a :: g₂, _, h, hh => by
    have ih := joinNL_append (a :: g₂) (by simp) h hh
    show joinNL (p :: ((a :: g₂) ++ h)) = joinNL (p :: a :: g₂) ++ '\n' :: joinNL h
    rw [joinNL_cons p ((a :: g₂) ++ h) (by simp), ih,
        joinNL_cons p (a :: g₂) (by simp)]
    simp

lemma dropWhile_append_of_fixed {l₁ l₂ : List Char}
    (h : l₁.dropWhile pyWS = l₁) (hne : l₁ ≠ []) :
    (l₁ ++ l₂).dropWhile pyWS = l₁ ++ l₂ := by
  rw [List.dropWhile_append, h]
  have hie : l₁.isEmpty = false := by
    cases l₁
    · exact absurd rfl hne
    · rfl
  simp [hie]

lemma okPara_joinNL (g : List (List Char)) (hg : g ≠ [])
    (hok : ∀ p ∈ g, okPara p) : okPara (joinNL g) := by
  induction g with
  | nil => exact absurd rfl hg
  | cons p g₂ ih =>
    cases g₂ with
    | nil => simpa [joinNL] using hok p (by simp)
    | cons a g₃ =>
      obtain ⟨hne, hl, hr⟩ := hok p (by simp)
      obtain ⟨hne2, hl2, hr2⟩ :=
        ih (by simp) (fun q hq => hok q (List.mem_cons_of_mem _ hq))
      rw [joinNL_cons p (a :: g₃) (by simp)]
      refine ⟨by simp, ?_, ?_⟩
      · exact dropWhile_append_of_fixed hl hne
      · have hrev : (p ++ '\n' :: joinNL (a :: g₃)).reverse =
            (joinNL (a :: g₃)).reverse ++ '\n' :: p.reverse := by
          simp
        rw [hrev]
        exact dropWhile_append_of_fixed hr2 (by simp [hne2])

lemma okPara_pyStripL (p : List Char) (h : okPara p) : pyStripL p = p := by
  obtain ⟨_, hl, hr⟩ := h
  unfold pyStripL
  rw [hl, hr, List.reverse_reverse]

lemma pyStripL_group (g : List (List Char)) (hg : g ≠ [])
    (hok : ∀ p ∈ g, okPara p) :
    pyStripL (joinNL g ++ ['\n']) = joinNL g := by
  obtain ⟨hne, hl, hr⟩ := okPara_joinNL g hg hok
  unfold pyStripL
  rw [dropWhile_append_of_fixed hl hne, List.reverse_append]
  simp only [List.reverse_cons, List.reverse_nil, List.nil_append,
    List.singleton_append]
  rw [List.dropWhile_cons_of_pos (by rfl), hr, List.reverse_reverse]

lemma chunkLoop_ne_nil (maxChars : Nat) :
    ∀ (paras : List (List Char)) (current : List Char), current ≠ [] →
      chunkLoop maxChars paras current ≠ [] := by
  intro paras
  induction paras with
  | nil => intro current h; simp [chunkLoop, h]
  | cons p ps ih =>
    intro current h
    simp only [chunkLoop]
    split
    · exact ih _ (by simp)
    · simp

lemma chunkLoop_join (maxChars : Nat) :
    ∀ (paras g : List (List Char)), g ≠ [] → (∀ p ∈ g, okPara p) →
      (∀ p ∈ paras, okPara p) →
      joinNL ((chunkLoop maxChars paras (joinNL g ++ ['\n'])).map pyStripL) =
        joinNL (g ++ paras) := by
  intro paras
  induction paras with
  | nil =>
    intro g hg hok _
    have hne : joinNL g ++ ['\n'] ≠ [] := by simp
    simp only [chunkLoop, if_neg hne, List.map_cons, List.map_nil]
    rw [pyStripL_group g hg hok, okPara_pyStripL _ (okPara_joinNL g hg hok)]
    simp [joinNL]
  | cons p ps ih =>
    intro g hg hok hps
    have hokp : okPara p := hps p (by simp)
    have hps2 : ∀ q ∈ ps, okPara q :=
      fun q hq => hps q (List.mem_cons_of_mem _ hq)
    have hgp : ∀ q ∈ g ++ [p], okPara q := by
      intro q hq
      rcases List.mem_append.mp hq with h | h
      · exact hok q h
      · simp only [List.mem_singleton] at h
        subst h
        exact hokp
    simp only [chunkLoop]
    split
    case isTrue hbound =>
      have hcur : (joinNL g ++ ['\n']) ++ p ++ ['\n'] =
          joinNL (g ++ [p]) ++ ['\n'] := by
        rw [joinNL_append g hg [p] (by simp)]
        simp [joinNL]
      rw [hcur, ih (g ++ [p]) (by simp [hg]) hgp hps2]
      simp
    case isFalse hbound =>
      have hrest : chunkLoop maxChars ps (p ++ ['\n']) ≠ [] :=
        chunkLoop_ne_nil maxChars ps (p ++ ['\n']) (by simp)
      rw [List.map_cons,
        joinNL_cons _ _ (by simpa using hrest),
        pyStripL_group g hg hok, okPara_pyStripL _ (okPara_joinNL g hg hok)]
      have hp1 : p ++ ['\n'] = joinNL [p] ++ ['\n'] := rfl
      rw [hp1, ih [p] (by simp) (by simpa using hokp) hps2,
        joinNL_append g hg (p :: ps) (by simp)]
      rfl

lemma match_allowed_language_loop_eq_find (primary : String)
    (ls : List String) :
    match_allowed_language_loop primary ls =
      ls.find? (fun l => pyStartsWith l primary) := by
  induction ls with
  | nil => rfl
  | cons l ls ih =>
    by_cases h : pyStartsWith l primary <;>
      simp [match_allowed_language_loop, List.find?_cons, h, ih]

lemma lookup_append_self (stores : SessionStore) (sid : String)
    (h : lookupStore stores sid = none) :
    lookupStore (stores ++ [(sid, [])]) sid = some [] := by
  induction stores with
  | nil => simp [lookupStore]
  | cons e rest ih =>
    obtain ⟨k, v⟩ := e
    by_cases hk : k = sid
    · simp [lookupStore, hk] at h
    · simp only [lookupStore, List.cons_append, if_neg hk] at h ⊢
      exact ih h

lemma lookup_storeAppend (stores : SessionStore) (sid : String)
    (ms h : List Msg) (hl : lookupStore stores sid = some h) :
    lookupStore (storeAppend stores sid ms) sid = some (h ++ ms) := by
  induction stores with
  | nil => simp [lookupStore] at hl
  | cons e rest ih =>
    obtain ⟨k, v⟩ := e
    by_cases hk : k = sid
    · subst hk
      simp only [lookupStore, if_true, eq_self_iff_true,
        Option.some.injEq] at hl
      simp [storeAppend, lookupStore, hl]
    · simp only [lookupStore, if_neg hk] at hl
      simpa [storeAppend, lookupStore, hk] using ih hl

lemma get_session_history_lookup (stores : SessionStore) (sid : String) :
    lookupStore (get_session_history stores sid).fst sid =
      some (get_session_history stores sid).snd := by
  unfold get_session_history
  cases hl : lookupStore stores sid with
  | some h => simp [hl]
  | none => simpa using lookup_append_self stores sid hl

lemma runTurn_lookup (stores : SessionStore) (sid : String)
    (u a : String) :
    lookupStore (runTurn stores sid u a) sid =
      some (get_conversation_history stores sid ++
        [Msg.human u, Msg.agent a]) := by
  unfold runTurn get_conversation_history
  cases hl : lookupStore stores sid with
  | some h =>
    have : (get_session_history stores sid) = (stores, h) := by
      simp [get_session_history, hl]
    rw [this]
    exact lookup_storeAppend stores sid _ h hl
  | none =>
    have : (get_session_history stores sid) = (stores ++ [(sid, [])], []) := by
      simp [get_session_history, hl]
    rw [this]
    simpa using
      lookup_storeAppend (stores ++ [(sid, [])]) sid _ []
        (lookup_append_self stores sid hl)

lemma runTurns_history (sid : String) (turns : List (String × String)) :
    ∀ stores : SessionStore,
      get_conversation_history (runTurns stores sid turns) sid =
        get_conversation_history stores sid ++ turnMessages turns := by
  induction turns with
  | nil => intro stores; simp [runTurns, turnMessages]
  | cons t ts ih =>
    intro stores
    have hstep : get_conversation_history (runTurn stores sid t.fst t.snd) sid =
        get_conversation_history stores sid ++
          [Msg.human t.fst, Msg.agent t.snd] := by
      unfold get_conversation_history
      rw [runTurn_lookup stores sid t.fst t.snd]
      rfl
    calc get_conversation_history (runTurns stores sid (t :: ts)) sid
        = get_conversation_history
            (runTurns (runTurn stores sid t.fst t.snd) sid ts) sid := by
          simp [runTurns]
      _ = get_conversation_history (runTurn stores sid t.fst t.snd) sid ++
            turnMessages ts := ih _
      _ = get_conversation_history stores sid ++ turnMessages (t :: ts) := by
          rw [hstep]; simp [turnMessages]

lemma turnMessages_length (turns : List (String × String)) :
    (turnMessages turns).length = 2 * turns.length := by
  induction turns with
  | nil => simp [turnMessages]
  | cons t ts ih =>
    simp only [turnMessages, List.map_cons, List.flatten] at ih ⊢
    simp [ih]; ring

lemma isAltFrom_turnMessages (turns : List (String × String)) :
    isAltFrom true (turnMessages turns) = true := by
  induction turns with
  | nil => rfl
  | cons t ts ih => simpa [turnMessages, isAltFrom] using ih

/-- C2: starting from a session whose history is empty (the key unseen, or
seen with no messages), after N successfully completed turns through
`invoke_agent` the session history is exactly the turns' human/agent pairs
in order: 2N messages, strictly alternating starting with a human message,
each turn contributing its utterance before its answer. -/
theorem invoke_agent_history_after_turns (stores : SessionStore)
    (sid : String) (turns : List (String × String))
    (h : lookupStore stores sid = none ∨ lookupStore stores sid = some []) :
    get_conversation_history (runTurns stores sid turns) sid =
        turnMessages turns ∧
      (get_conversation_history (runTurns stores sid turns) sid).length =
        2 * turns.length ∧
      isAltFrom true
        (get_conversation_history (runTurns stores sid turns) sid) = true := by
  have hempty : get_conversation_history stores sid = [] := by
    unfold get_conversation_history
    rcases h with h | h <;> rw [h]
  have hmain := runTurns_history sid turns stores
  rw [hempty, List.nil_append] at hmain
  refine ⟨hmain, ?_, ?_⟩
  · rw [hmain]; exact turnMessages_length turns
  · rw [hmain]; exact isAltFrom_turnMessages turns

/-- Witness for C2 at a concrete fresh store and two turns. -/
theorem invoke_agent_history_after_turns_witness :
    get_conversation_history
        (runTurns [] "s1" [("hi", "hello"), ("more", "sure")]) "s1" =
      [Msg.human "hi", Msg.agent "hello", Msg.human "more",
        Msg.agent "sure"] :=
  (invoke_agent_history_after_turns [] "s1"
    [("hi", "hello"), ("more", "sure")] (Or.inl (by rfl))).1

/-- C3: `get_session_history` is idempotent — a second lookup with the same
key returns the identical store and the identical history (the lookup
itself never duplicates or resets state), and messages appended through
the session object returned by one call are visible to every later lookup
with that key. -/
theorem get_session_history_idempotent (stores : SessionStore)
    (sid : String) :
    get_session_history (get_session_history stores sid).fst sid =
        ((get_session_history stores sid).fst,
          (get_session_history stores sid).snd) ∧
      ∀ ms : List Msg,
        lookupStore
            (storeAppend (get_session_history stores sid).fst sid ms) sid =
          some ((get_session_history stores sid).snd ++ ms) := by
  have hl := get_session_history_lookup stores sid
  constructor
  · cases hp : get_session_history stores sid with
    | mk st hist =>
      rw [hp] at hl
      simp only at hl
      simp [get_session_history, hl]
  · intro ms
    exact lookup_storeAppend _ sid ms _ hl

/-- C4: a session key never seen before: the diagnostic read
`get_conversation_history` returns the empty sequence (and cannot fail),
while looking the key up through the store (`get_session_history`)
silently creates an empty session rather than raising, after which the
diagnostic read still reports an empty history. -/
theorem unknown_session_key_empty (stores : SessionStore) (sid : String)
    (h : lookupStore stores sid = none) :
    get_conversation_history stores sid = [] ∧
      get_session_history stores sid = (stores ++ [(sid, [])], []) ∧
      get_conversation_history (get_session_history stores sid).fst sid
        = [] := by
  refine ⟨?_, ?_, ?_⟩
  · unfold get_conversation_history; rw [h]
  · unfold get_session_history; rw [h]
  · unfold get_conversation_history
    rw [get_session_history_lookup stores sid]
    have : get_session_history stores sid = (stores ++ [(sid, [])], []) := by
      unfold get_session_history; rw [h]
    rw [this]

/-- Witness for C4 at a concrete empty store. -/
theorem unknown_session_key_empty_witness :
    get_conversation_history ([] : SessionStore) "fresh" = [] ∧
      get_session_history ([] : SessionStore) "fresh" =
        ([("fresh", [])], []) ∧
      get_conversation_history
        (get_session_history ([] : SessionStore) "fresh").fst "fresh" = [] :=
  unknown_session_key_empty [] "fresh" (by rfl)

set_option maxRecDepth 20000

/-- C5 (counterexample): on a single-paragraph input of 1001 characters,
`translate_text`'s chunking produces a chunk of 1001 characters — a
request exceeding the 1000-character ceiling (plus a spurious empty
chunk), so not every chunk sent to the provider respects the ceiling. -/
theorem translate_text_chunk_ceiling_counterexample :
    ¬ ∀ c ∈ chunkChars (List.replicate 1001 'a'), c.length ≤ 1000 := by
  decide

/-- C5 (amended): every chunk `translate_text` sends to the translation
provider has at most 1000 characters, provided every newline-separated
paragraph of the input has at most 999 characters; a longer paragraph is
forwarded as a single chunk exceeding the ceiling. -/
theorem translate_text_chunks_bounded (text : String)
    (h : ∀ p ∈ pySplitNL text.data, p.length + 1 ≤ 1000) :
    ∀ c ∈ chunkChars text.data, c.length ≤ 1000 := by
  intro c hc
  exact chunkLoop_length_le 1000 (pySplitNL text.data) [] h (by simp) c hc

/-- Witness for the amended C5 at a concrete two-paragraph input. -/
theorem translate_text_chunks_bounded_witness :
    (∀ p ∈ pySplitNL ("hello\nworld" : String).data, p.length + 1 ≤ 1000) ∧
      ∀ c ∈ chunkChars ("hello\nworld" : String).data, c.length ≤ 1000 :=
  ⟨by decide, translate_text_chunks_bounded "hello\nworld" (by decide)⟩

/-- C6 (counterexample): for the input "a\n" (two paragraphs: "a" and an
empty one) translated chunk-by-chunk by the identity collaborator, the
output has one paragraph while the input has two — the chunking is not
paragraph-count preserving. -/
theorem translate_text_identity_paragraph_count_counterexample :
    (pySplitNL (translate_text (fun c => c) "a\n" "gu" "en").data).length
        = 1 ∧
      (pySplitNL ("a\n" : String).data).length = 2 := by
  constructor <;> decide

/-- C6 (amended): when every newline-separated paragraph of the input is
nonempty with no leading or trailing whitespace, and the first paragraph
fits the 1000-character ceiling, translating every chunk with the
identity collaborator reconstructs the input text exactly — in
particular, the same paragraph count and paragraph order. -/
theorem translate_text_identity_reconstructs_paragraphs
    (text source target : String)
    (hlang : format_language_code source ≠ format_language_code target)
    (hok : ∀ p ∈ pySplitNL text.data, okPara p)
    (hfirst : (pySplitNL text.data).headI.length + 1 ≤ 1000) :
    translate_text (fun c => c) text target source = text ∧
      pySplitNL (translate_text (fun c => c) text target source).data =
        pySplitNL text.data := by
  have hmain : translate_text (fun c => c) text target source = text := by
    simp only [translate_text]
    rw [if_neg hlang]
    have hβ : (fun c => pyStripL ((fun c : List Char => c) c)) = pyStripL :=
      rfl
    rw [hβ]
    unfold chunkChars
    cases hs : pySplitNL text.data with
    | nil => exact absurd hs (pySplitNL_ne_nil _)
    | cons p₀ ps =>
      rw [hs] at hok hfirst
      have hfit : ([] : List Char).length + p₀.length + 1 ≤ 1000 := by
        simpa using hfirst
      simp only [chunkLoop, if_pos hfit]
      have hcur : ([] : List Char) ++ p₀ ++ ['\n'] = joinNL [p₀] ++ ['\n'] := by
        simp [joinNL]
      rw [hcur, chunkLoop_join 1000 ps [p₀] (by simp)
        (by simpa using hok p₀ (by simp))
        (fun q hq => hok q (List.mem_cons_of_mem _ hq))]
      have hjoin : joinNL ([p₀] ++ ps) = text.data := by
        have : ([p₀] ++ ps : List (List Char)) = pySplitNL text.data := by
          rw [hs]; rfl
        rw [this]
        exact joinNL_pySplitNL text.data
      rw [hjoin]
  exact ⟨hmain, by rw [hmain]⟩

/-- Witness for the amended C6 at a concrete two-paragraph input with
distinct source and target languages. -/
theorem translate_text_identity_reconstructs_paragraphs_witness :
    translate_text (fun c => c) "hello\nworld" "gu" "en" = "hello\nworld" :=
  (translate_text_identity_reconstructs_paragraphs "hello\nworld" "en" "gu"
    (by decide) (by decide) (by decide)).1

/-- C7: when no location is resolvable from the input text (empty input,
or extraction finding nothing) and none from coordinates (a coordinate
missing, or reverse lookup failing), `get_agriculture_prices` returns
exactly "Unable to detect your location from input or coordinates.";
being a total `String`-valued function, the embedded tool never raises
past the tool boundary. -/
theorem get_agriculture_prices_no_location {Price : Type}
    (extract : String → Except String (Option String))
    (coords : Float → Float → Option String)
    (tr : String → Except String String)
    (fetch : String → Price) (fmt : Price → String)
    (city_or_text : String) (lat lon : Option Float)
    (hext : city_or_text = "" ∨ extract city_or_text = Except.ok none ∨
      extract city_or_text = Except.ok (some ""))
    (hcoords : lat = none ∨ lon = none ∨
      ∀ a b, lat = some a → lon = some b →
        coords a b = none ∨ coords a b = some "") :
    get_agriculture_prices extract coords tr fetch fmt city_or_text lat lon =
      "Unable to detect your location from input or coordinates." := by
  have hloc : ∃ v, (if city_or_text != "" then extract city_or_text
      else Except.ok none) = Except.ok v ∧ pyTruthy v = false := by
    rcases hext with h | h | h
    · refine ⟨none, ?_, rfl⟩
      subst h
      rfl
    · by_cases hc : city_or_text = ""
      · subst hc; exact ⟨none, rfl, rfl⟩
      · exact ⟨none, by simp [hc, h], rfl⟩
    · by_cases hc : city_or_text = ""
      · subst hc; exact ⟨none, rfl, rfl⟩
      · exact ⟨some "", by simp [hc, h], rfl⟩
  obtain ⟨v, hv, hvf⟩ := hloc
  have hfin : ∀ w : Option String, pyTruthy w = false →
      (match w with
       | none => "Unable to detect your location from input or coordinates."
       | some loc =>
         if loc = "" then
           "Unable to detect your location from input or coordinates."
         else
           match (if is_non_english_text loc then tr loc
                  else Except.ok loc) with
           | Except.error e => "Error fetching agriculture prices: " ++ e
           | Except.ok loc₂ => fmt (fetch loc₂)) =
        "Unable to detect your location from input or coordinates." := by
    intro w hw
    cases w with
    | none => rfl
    | some s =>
      have hs : s = "" := by
        simpa [pyTruthy] using hw
      subst hs
      rfl
  simp only [get_agriculture_prices, hv]
  have hnv : (!pyTruthy v) = true := by rw [hvf]; rfl
  rw [if_pos hnv]
  rcases hcoords with h | h | h
  · subst h
    cases lon <;> exact hfin v hvf
  · subst h
    cases lat <;> exact hfin v hvf
  · cases lat with
    | none => exact hfin v hvf
    | some a =>
      cases lon with
      | none => exact hfin v hvf
      | some b =>
        dsimp only
        rcases h a b rfl rfl with hc | hc
        · rw [hc]
        · rw [hc]
          exact hfin (some "") rfl

/-- Witness for C7: empty extraction result and absent coordinates. -/
theorem get_agriculture_prices_no_location_witness :
    @get_agriculture_prices Unit (fun _ => Except.ok none)
        (fun _ _ => none) (fun s => Except.ok s) (fun _ => ()) (fun _ => "")
        "what are the prices" none none =
      "Unable to detect your location from input or coordinates." :=
  get_agriculture_prices_no_location (fun _ => Except.ok none)
    (fun _ _ => none) (fun s => Except.ok s) (fun _ => ()) (fun _ => "")
    "what are the prices" none none (Or.inr (Or.inl rfl)) (Or.inl rfl)

/-- C8: for a location name whose detected language formats to the working
language code "en-IN" (already English), the translation step inside
`translate_location_name_to_english` is a detected no-op — the result is
the input itself, only stripped of surrounding whitespace and trailing
dots — whatever the translation provider would do. -/
theorem translate_location_name_to_english_noop
    (detect : String → Except String String)
    (provider : List Char → List Char) (name lang : String)
    (hne : name ≠ "")
    (hdet : detect name = Except.ok lang)
    (hen : format_language_code lang = "en-IN") :
    translate_location_name_to_english detect provider name =
      Except.ok (some (pyRstrip '.' (pyStrip name))) := by
  unfold translate_location_name_to_english
  rw [if_neg hne, hdet]
  have hfmt : format_language_code lang = format_language_code "en" := by
    rw [hen]; rfl
  have htr : translate_text provider name "en" lang = name := by
    simp only [translate_text]
    rw [if_pos hfmt]
  show Except.ok (some (pyRstrip '.'
      (pyStrip (translate_text provider name "en" lang)))) = _
  rw [htr]

/-- Witness for C8: an already-English location name is returned as-is. -/
theorem translate_location_name_to_english_noop_witness :
    translate_location_name_to_english (fun _ => Except.ok "en-IN")
        (fun c => c) "Surat" = Except.ok (some "Surat") := by
  rw [translate_location_name_to_english_noop (fun _ => Except.ok "en-IN")
    (fun c => c) "Surat" "en-IN" (by decide) rfl (by decide)]
  rfl

/-- C9: with a nonempty caller-supplied allow-list, the `/text` endpoint
picks the first entry that starts with the primary subtag of the detected
user language, and falls back to the first entry when none matches. -/
theorem choose_output_language_first_match (langs : List String)
    (user_lang : String) (h : langs ≠ []) :
    choose_output_language langs user_lang =
      match langs.find?
          (fun l => pyStartsWith l (split_dash_head user_lang)) with
      | some l => l
      | none => langs.headI := by
  cases langs with
  | nil => exact absurd rfl h
  | cons a ls =>
    simp only [choose_output_language]
    rw [match_allowed_language_loop_eq_find]

/-- Witness for C9: detected "gu" matches the second entry "gu-IN". -/
theorem choose_output_language_first_match_witness :
    choose_output_language ["hi-IN", "gu-IN"] "gu" = "gu-IN" := by
  rw [choose_output_language_first_match ["hi-IN", "gu-IN"] "gu" (by simp)]
  rfl

/-- C10: `invoke_agent` forwards coordinates to the agent only by appending
" (lat: {lat}, lon: {lon})" to the utterance, and only when both
latitude and longitude are present; if either is absent the utterance is
passed verbatim and the other coordinate is silently ignored. -/
theorem invoke_agent_coordinate_forwarding (t : String)
    (lat lon : Option String) :
    (∀ a b, lat = some a → lon = some b →
      enhanced_input t lat lon =
        t ++ " (lat: " ++ a ++ ", lon: " ++ b ++ ")") ∧
      ((lat = none ∨ lon = none) → enhanced_input t lat lon = t) := by
  constructor
  · intro a b ha hb
    subst ha; subst hb
    rfl
  · intro h
    rcases h with h | h
    · subst h; rfl
    · subst h
      cases lat <;> rfl

/-- Witness for C10 at concrete coordinates and at a missing latitude. -/
theorem invoke_agent_coordinate_forwarding_witness :
    enhanced_input "weather?" (some "21.17") (some "72.83") =
        "weather? (lat: 21.17, lon: 72.83)" ∧
      enhanced_input "weather?" none (some "72.83") = "weather?" :=
  ⟨((invoke_agent_coordinate_forwarding "weather?" (some "21.17")
      (some "72.83")).1 "21.17" "72.83" rfl rfl).trans (by rfl),
    (invoke_agent_coordinate_forwarding "weather?" none
      (some "72.83")).2 (Or.inl rfl)⟩
